import Mathlib

/-!
Verification of the CSV-cleaning core of the erp-intelligence-layer
repository (`src/ingestion/csv_cleaner.py`), shallowly embedded in Lean.

Modelling conventions:
* A pandas cell is `Cell`: `num` (a float value, modelled as `ℚ`),
  `str` (a string), or `null` (NaN; missing values produced by `read_csv`
  and by coercion failures are NaN floats, so `null` follows NaN
  comparison semantics: every `<`/`≤`-comparison with `null` is false,
  while `duplicated` treats two NaN values as equal).
* A DataFrame is a column-name list plus a list of rows; a row is the
  list of its cells in column order.
* External library calls whose exact behaviour is not part of this
  repository are parameters: the fuzzywuzzy similarity scorer
  (`scorer : String → String → Nat`, scores 0–100), the numeric string
  parser behind `pd.to_numeric` (`parse : String → Option ℚ`), and the
  three whole-column pandas operations inside `clean_dates`
  (`pd.to_datetime`, comparison against `Timestamp.now()`, and
  `dt.strftime`), each returning `none` when the call raises.
* Python `raise` / `try–except` is modelled with `Except` / `Option`.
-/

namespace ErpClean

/-- A single untyped pandas cell: a float (`num`), a string, or NaN. -/
inductive Cell : Type
  | num (q : ℚ)
  | str (s : String)
  | null
deriving DecidableEq, Repr

/-- A DataFrame: ordered column names plus rows of cells in column order. -/
structure DF : Type where
  cols : List String
  rows : List (List Cell)
deriving DecidableEq, Repr

/-- Cell of `row` in column `c`, `null` when the column or cell is absent. -/
def getCell (cols : List String) (row : List Cell) (c : String) : Cell :=
  match cols.findIdx? (fun x => x == c) with
  | some i => row.getD i Cell.null
  | none => Cell.null

/-- The column `c` of `df` as a list of cells (`df[c]`). -/
def getCol (df : DF) (c : String) : List Cell :=
  df.rows.map (fun row => getCell df.cols row c)

/-- Overwrite column `c` of `df` with `vals` (`df[c] = vals`); identity when
the column is absent (callers in the source always guard on presence). -/
def setCol (df : DF) (c : String) (vals : List Cell) : DF :=
  match df.cols.findIdx? (fun x => x == c) with
  | some i => ⟨df.cols, df.rows.zipWith (fun row v => row.set i v) vals⟩
  | none => df

/-! ### Column Matcher: `fuzzy_match_columns` (csv_cleaner.py lines 64–96) -/
/-- Python dict assignment `m[k] = v` on an insertion-ordered association
list: replace the value at the first occurrence of `k`, else append. -/
def insertAssoc : List (String × String) → String → String → List (String × String)
  | [], k, v => [(k, v)]
  | q :: qs, k, v => if q.1 = k then (k, v) :: qs else q :: insertAssoc qs k v

/-- `fuzzywuzzy.process.extractOne(query, choices, scorer, score_cutoff)`:
the first choice attaining the maximal score among those with score ≥
cutoff, or `none` when no choice reaches the cutoff. -/
def extractOne (scorer : String → String → Nat) (query : String)
    (choices : List String) (score_cutoff : Nat) : Option (String × Nat) :=
  let qualifying := (choices.map (fun c => (c, scorer query c))).filter
    (fun p => score_cutoff ≤ p.2)
  qualifying.foldl (fun best p =>
    match best with
    | none => some p
    | some b => if b.2 < p.2 then some p else some b) none

/-- One iteration of the `for universal_name, expected_name in
expected_mapping.items()` loop of `fuzzy_match_columns`: exact match
first, then fuzzy match against the (never pruned) full header list,
else record the canonical field as unmatched. -/
def fmStep (scorer : String → String → Nat) (df_columns : List String)
    (acc : List (String × String) × List String) (p : String × String) :
    List (String × String) × List String :=
  if p.2 ∈ df_columns then
    (insertAssoc acc.1 p.2 p.1, acc.2)
  else
    match extractOne scorer p.2 df_columns 70 with
    | some best_match => (insertAssoc acc.1 best_match.1 p.1, acc.2)
    | none => (acc.1, acc.2 ++ [p.1])

/-- `fuzzy_match_columns(df_columns, expected_mapping)`: returns the
`matched` dict (actual header → canonical field, insertion-ordered) and
the `unmatched` list of canonical fields.  `expected_mapping` is the
profile's insertion-ordered `canonical field → expected column` dict. -/
def fuzzy_match_columns (scorer : String → String → Nat)
    (df_columns : List String) (expected_mapping : List (String × String)) :
    List (String × String) × List String :=
  expected_mapping.foldl (fmStep scorer df_columns) ([], [])

/-- Header that a canonical field with expected column `e` would bind to:
`e` itself on exact match, else the accepted fuzzy candidate. -/
def bindsTo (scorer : String → String → Nat) (df_columns : List String)
    (e : String) : Option String :=
  if e ∈ df_columns then some e
  else
    match extractOne scorer e df_columns 70 with
    | some best_match => some best_match.1
    | none => none

/-- C1 counterexample input: two canonical fields `f1`, `f2` whose expected
columns `AA`, `AB` are both absent, one table header `AX`, and a scorer
giving every pair similarity 75 (≥ the 70 cutoff). -/
def c1Scorer : String → String → Nat := fun _ _ => 75

/-- C1 counterexample mapping. -/
def c1Mapping : List (String × String) := [("f1", "AA"), ("f2", "AB")]

/-! ### Format Detector: `detect_erp_system` (csv_cleaner.py lines 39–62) -/
/-- Number of a profile's expected columns present among the table headers
(`sum(1 for col in expected_cols if col in columns)`). -/
def profile_matches (columns : List String) (m : List (String × String)) : Nat :=
  (m.map Prod.snd).countP (fun c => columns.contains c)

/-- Python `max(scores, key=scores.get)` over an insertion-ordered dict:
the first entry attaining the maximal value. -/
def firstMax (l : List (String × Nat)) : Option (String × Nat) :=
  l.foldl (fun acc p =>
    match acc with
    | none => some p
    | some b => if b.2 < p.2 then some p else some b) none

/-- Modelled from the spec: the "gofrugal" profile's `canonical field →
expected source column` mapping for the sales-transaction entity; the
concrete registry lives in `config/universal_schema.yaml`, outside the
source tree. -/
def gfMap : List (String × String) :=
  [("transaction_id", "bill_no"), ("transaction_date", "bill_date"),
   ("customer_name", "customer"), ("product_name", "item_name"),
   ("quantity", "qty"), ("unit_price", "rate"), ("total_amount", "amount")]

/-- Modelled from the spec: the "tally" profile's mapping. -/
def tallyMap : List (String × String) :=
  [("transaction_id", "voucher_no"), ("transaction_date", "voucher_date"),
   ("customer_name", "party_name"), ("product_name", "stock_item"),
   ("quantity", "billed_qty"), ("unit_price", "rate"),
   ("total_amount", "value")]

/-- Modelled from the spec: the repository loads its profile registry from
`config/universal_schema.yaml`, which is not part of the source tree.
Per the spec, profiles are keyed by source-system name (examples given:
"gofrugal", "tally"), each holding an ordered mapping canonical field →
expected source column, and distinct ERP systems export (mostly)
different column names. -/
def erp_mappings : List (String × List (String × String)) :=
  [("gofrugal", gfMap), ("tally", tallyMap)]

/-- `detect_erp_system(df)`: score every registered profile by the number
of its expected columns present in the headers, pick the profile with the
maximal score (first wins on ties), and compute `confidence =
matches / |profile.mapping|`. Returns the detected name and that
confidence. -/
def detect_erp_system (mappings : List (String × List (String × String)))
    (columns : List String) : String × ℚ :=
  let scores := mappings.map (fun p => (p.1, profile_matches columns p.2))
  let detected := (firstMax scores).getD ("", 0)
  let confidence : ℚ :=
    match mappings.lookup detected.1 with
    | some m => (detected.2 : ℚ) / (m.length : ℚ)
    | none => 0
  (detected.1, confidence)

/-- The `matches / |mapping|` ratio the detector computes for one profile. -/
def profile_confidence (mappings : List (String × List (String × String)))
    (columns : List String) (name : String) : ℚ :=
  match mappings.lookup name with
  | some m => (profile_matches columns m : ℚ) / (m.length : ℚ)
  | none => 0

/-! ### Field Cleaners: `clean_dates` (lines 98–115), `clean_numeric`
(lines 117–126) -/
/-- Whether a cell is a Python string. -/
def isStr : Cell → Bool
  | Cell.str _ => true
  | _ => false

/-- `series.isna()` for one cell: only NaN is missing. -/
def isna : Cell → Bool
  | Cell.null => true
  | _ => false

/-- A column has pandas dtype `object` exactly when it holds a string
cell (columns come from `read_csv`, so non-string data is numeric). -/
def hasString (col : List Cell) : Bool := col.any isStr

/-- `'₹'`- and `','`-removal plus whitespace strip on one string. -/
def stripCurrency (s : String) : String :=
  ((s.replace "₹" "").replace "," "").trim

/-- The `.str.replace(...).str.strip()` chain on one cell: pandas `.str`
methods return NaN on non-string elements of an object column. -/
def stripCell : Cell → Cell
  | Cell.str s => Cell.str (stripCurrency s)
  | _ => Cell.null

/-- `pd.to_numeric(x, errors='coerce')` on one cell: strings go through
the numeric parser (NaN on failure), numbers stay, NaN stays. -/
def toNumericCell (parse : String → Option ℚ) : Cell → Cell
  | Cell.str s =>
    match parse s with
    | some q => Cell.num q
    | none => Cell.null
  | Cell.num q => Cell.num q
  | Cell.null => Cell.null

/-- The column-level transform of `clean_numeric`: currency stripping only
when the column has dtype object, then numeric coercion. -/
def clean_numeric_col (parse : String → Option ℚ) (col : List Cell) :
    List Cell :=
  let col1 := if hasString col then col.map stripCell else col
  col1.map (toNumericCell parse)

/-- `clean_numeric(df, col)` (csv_cleaner.py lines 117–126). -/
def clean_numeric (parse : String → Option ℚ) (df : DF) (col : String) : DF :=
  setCol df col (clean_numeric_col parse (getCol df col))

/-- `df[~mask]`: drop the rows marked `true` in the boolean mask. -/
def dropMasked (rows : List (List Cell)) (mask : List Bool) :
    List (List Cell) :=
  (rows.zip mask).filterMap (fun p => if p.2 then none else some p.1)

/-- `clean_dates(df, date_col)` (csv_cleaner.py lines 98–115).  The three
external whole-column pandas calls are parameters returning `none` when
they raise; the `try`-block's `except` then returns the DataFrame in its
state at the failure point (`df[date_col] = ...` mutates in place). -/
def clean_dates (toDatetime : List Cell → Option (List Cell))
    (cmpNow : List Cell → Option (List Bool))
    (strftime : List Cell → Option (List Cell))
    (df : DF) (date_col : String) : DF :=
  match toDatetime (getCol df date_col) with
  | none => df
  | some parsed =>
    let df1 := setCol df date_col parsed
    match cmpNow (getCol df1 date_col) with
    | none => df1
    | some future_dates =>
      let df2 := if future_dates.any (fun b => b) then
          ⟨df1.cols, dropMasked df1.rows future_dates⟩
        else df1
      match strftime (getCol df2 date_col) with
      | none => df2
      | some formatted => setCol df2 date_col formatted

/-- Whether the `try` block of `clean_dates` raised (and the `except`
branch was taken): mirrors the control flow of `clean_dates`. -/
def clean_dates_raised (toDatetime : List Cell → Option (List Cell))
    (cmpNow : List Cell → Option (List Bool))
    (strftime : List Cell → Option (List Cell))
    (df : DF) (date_col : String) : Bool :=
  match toDatetime (getCol df date_col) with
  | none => true
  | some parsed =>
    let df1 := setCol df date_col parsed
    match cmpNow (getCol df1 date_col) with
    | none => true
    | some future_dates =>
      let df2 := if future_dates.any (fun b => b) then
          ⟨df1.cols, dropMasked df1.rows future_dates⟩
        else df1
      match strftime (getCol df2 date_col) with
      | none => true
      | some _ => false

/-! ### C8: error handling in `clean_dates` -/
/-- C8 counterexample table: one tz-aware date string. -/
def c8df : DF := ⟨["transaction_date"], [[Cell.str "2030-01-01T00:00:00+05:30"]]⟩

/-- C8 counterexample `pd.to_datetime`: succeeds, producing a parsed
(tz-aware) datetime column. -/
def c8toDT : List Cell → Option (List Cell) :=
  fun _ => some [Cell.str "Timestamp 2030-01-01 00:00:00+05:30"]

/-- C8 counterexample comparison against `Timestamp.now()`: raises, as
pandas does when comparing a tz-aware column with a naive timestamp. -/
def c8cmp : List Cell → Option (List Bool) := fun _ => none

/-- C8 counterexample `dt.strftime`: never reached. -/
def c8sf : List Cell → Option (List Cell) := fun c => some c

/-! ### Quality Validator: `validate_data_quality` (lines 128–186) -/
/-- The hard-coded `required_fields` of `AutomatedCSVCleaner.__init__`. -/
def required_fields : List String :=
  ["transaction_id", "transaction_date", "customer_name", "product_name",
   "quantity", "unit_price", "total_amount"]

/-- The quality report dict: `final_rows` is written at the end of
validation (0 until then). -/
structure QReport : Type where
  original_rows : Nat
  issues_found : List String
  rows_removed : Nat
  final_rows : Nat
deriving DecidableEq, Repr

/-- `report['issues_found'].append(s)`. -/
def addIssue (report : QReport) (s : String) : QReport :=
  { report with issues_found := report.issues_found ++ [s] }

/-- Errors `validate_data_quality` can raise: the elementwise comparison
of an object-dtype column containing strings against a number
(`TypeError`), and the terminal `ValueError` when every row is removed. -/
inductive VErr : Type
  | typeError
  | allRowsRemoved
  | keyError
deriving DecidableEq, Repr

/-- `df.duplicated(subset=['transaction_id'])`-based dedup keeping first
occurrences; pandas treats two NaN ids as duplicates of each other,
matching `Cell.null = Cell.null`. -/
def dedupGo (cols : List String) (seen : List Cell) :
    List (List Cell) → List (List Cell)
  | [] => []
  | r :: rs =>
    if getCell cols r "transaction_id" ∈ seen then
      dedupGo cols seen rs
    else
      r :: dedupGo cols (getCell cols r "transaction_id" :: seen) rs

/-- Rule 1: drop duplicate transactions (only if the column exists). -/
def dedupStep (df : DF) (report : QReport) : DF × QReport :=
  if "transaction_id" ∈ df.cols then
    let deduped := dedupGo df.cols [] df.rows
    if deduped.length ≠ df.rows.length then
      (⟨df.cols, deduped⟩,
       addIssue report
         s!"Removed {df.rows.length - deduped.length} duplicate transactions")
    else (df, report)
  else (df, report)

/-- Rule 2, one required field: drop rows with a null value in `field`
when the column exists (`df = df[~nulls]`). -/
def nullStep (acc : DF × QReport) (field : String) : DF × QReport :=
  let df := acc.1
  let report := acc.2
  if field ∈ df.cols then
    if (getCol df field).any isna then
      (⟨df.cols, df.rows.filter (fun r => !isna (getCell df.cols r field))⟩,
       addIssue report
         s!"Removed {(getCol df field).countP isna} rows with null {field}")
    else (df, report)
  else (df, report)

/-- `cell <= 0` for one cell of a numeric/NaN column (NaN compares
false). -/
def cellLe0 : Cell → Bool
  | Cell.num q => decide (q ≤ 0)
  | _ => false

/-- `(df['quantity'] <= 0) | (df['quantity'].isna())` per cell. -/
def qtyInvalid (c : Cell) : Bool := cellLe0 c || isna c

/-- `invalid_qty.sum()`: rows failing the quantity rule. -/
def qtyBadCount (df : DF) : Nat := (getCol df "quantity").countP qtyInvalid

/-- `invalid_price.sum()`: rows failing the unit-price rule. -/
def priceBadCount (df : DF) : Nat :=
  (getCol df "unit_price").countP qtyInvalid

/-- Rule 3: drop rows with quantity ≤ 0 or null.  The elementwise `<= 0`
comparison raises `TypeError` when the object column holds a string. -/
def qtyStep (df : DF) (report : QReport) : Except VErr (DF × QReport) :=
  if "quantity" ∈ df.cols then
    if (getCol df "quantity").any isStr then Except.error VErr.typeError
    else if (getCol df "quantity").any qtyInvalid then
      Except.ok
        (⟨df.cols,
          df.rows.filter (fun r => !qtyInvalid (getCell df.cols r "quantity"))⟩,
         addIssue report
           s!"Removed {qtyBadCount df} rows with invalid quantity")
    else Except.ok (df, report)
  else Except.ok (df, report)

/-- Rule 4: drop rows with unit price ≤ 0 or null (same comparison
semantics as rule 3). -/
def priceStep (df : DF) (report : QReport) : Except VErr (DF × QReport) :=
  if "unit_price" ∈ df.cols then
    if (getCol df "unit_price").any isStr then Except.error VErr.typeError
    else if (getCol df "unit_price").any qtyInvalid then
      Except.ok
        (⟨df.cols,
          df.rows.filter
            (fun r => !qtyInvalid (getCell df.cols r "unit_price"))⟩,
         addIssue report
           s!"Removed {priceBadCount df} rows with invalid price")
    else Except.ok (df, report)
  else Except.ok (df, report)

/-- Elementwise `cost > price` on two object/numeric cells: numbers and
strings compare within their own type, NaN compares false, and a
string/number or string/NaN pair raises `TypeError` in pandas. -/
def cellGt : Cell → Cell → Bool
  | Cell.num a, Cell.num b => decide (b < a)
  | Cell.str a, Cell.str b => decide (b < a)
  | _, _ => false

/-- Whether the elementwise `>` comparison of two cells raises. -/
def cmpRaises : Cell → Cell → Bool
  | Cell.str _, Cell.num _ => true
  | Cell.num _, Cell.str _ => true
  | Cell.str _, Cell.null => true
  | Cell.null, Cell.str _ => true
  | _, _ => false

/-- `(df['cost_price'] > df['unit_price']) & df['cost_price'].notna()`
summed: the count of flagged negative-margin rows. -/
def negMarginCount (df : DF) : Nat :=
  ((getCol df "cost_price").zip (getCol df "unit_price")).countP
    (fun p => cellGt p.1 p.2 && !isna p.1)

/-- Rule 5: flag (never drop) rows whose cost price exceeds the unit
price; only the report changes. -/
def marginStep (df : DF) (report : QReport) : Except VErr (DF × QReport) :=
  if "cost_price" ∈ df.cols ∧ "unit_price" ∈ df.cols then
    if ((getCol df "cost_price").zip (getCol df "unit_price")).any
        (fun p => cmpRaises p.1 p.2) then
      Except.error VErr.typeError
    else if 0 < negMarginCount df then
      Except.ok (df,
        addIssue report
          s!"⚠️  {negMarginCount df} rows have selling price < cost price")
    else Except.ok (df, report)
  else Except.ok (df, report)

/-- Rule 6: record required canonical fields entirely absent as columns. -/
def missingStep (df : DF) (report : QReport) : QReport :=
  let missing := required_fields.filter (fun f => !(df.cols.contains f))
  if missing ≠ [] then addIssue report s!"⚠️  Missing fields: {missing}"
  else report

/-- Exception propagation for one validator stage: an uncaught Python
exception in `x` aborts the rest of the function. -/
def bindE {A B : Type} (x : Except VErr A) (f : A → Except VErr B) :
    Except VErr B :=
  match x with
  | Except.error e => Except.error e
  | Except.ok a => f a

/-- The body of `validate_data_quality` up to (excluding) the final
zero-rows check: rules 1–6 in order, then the `rows_removed` /
`final_rows` bookkeeping. -/
def validate_rules (df : DF) : Except VErr (DF × QReport) :=
  let report0 : QReport :=
    ⟨df.rows.length, [], 0, 0⟩
  let original_len := df.rows.length
  let s1 := dedupStep df report0
  let s2 := required_fields.foldl nullStep s1
  bindE (qtyStep s2.1 s2.2) (fun s3 =>
    bindE (priceStep s3.1 s3.2) (fun s4 =>
      bindE (marginStep s4.1 s4.2) (fun s5 =>
        let report6 := missingStep s5.1 s5.2
        Except.ok (s5.1,
          { report6 with
            rows_removed := original_len - s5.1.rows.length,
            final_rows := s5.1.rows.length }))))

/-- `validate_data_quality(df)` (csv_cleaner.py lines 128–186): rules,
bookkeeping, then `raise ValueError` when `final_rows == 0`. -/
def validate_data_quality (df : DF) : Except VErr (DF × QReport) :=
  match validate_rules df with
  | Except.error e => Except.error e
  | Except.ok s =>
    if s.2.final_rows = 0 then Except.error VErr.allRowsRemoved
    else Except.ok s

/-! ### Step lemmas for the validator -/
/-- The validation rules never touch the numeric report fields, only the
issue list. -/
def reportExt (r r' : QReport) : Prop :=
  r'.original_rows = r.original_rows ∧ r'.rows_removed = r.rows_removed ∧
    r'.final_rows = r.final_rows

/-! ### Pipeline Driver: `clean_csv` (csv_cleaner.py lines 189–262) -/
/-- Modelled from the spec: the universal schema's canonical field list
(`config/universal_schema.yaml` is not part of the source tree; the spec
gives this example field list for the sales-transaction entity). -/
def canonical_fields : List String :=
  ["transaction_id", "transaction_date", "customer_name", "product_name",
   "quantity", "unit_price", "total_amount", "cost_price", "tax_amount"]

/-- `df.rename(columns=column_mapping)`: each column name in the mapping
is replaced by its target; columns not in the mapping keep their names. -/
def renameCols (df : DF) (mapping : List (String × String)) : DF :=
  ⟨df.cols.map (fun c => (mapping.lookup c).getD c), df.rows⟩

/-- `df[name] = scalar`: overwrite the column in place when it exists,
else append it on the right with the scalar in every row. -/
def addCol (df : DF) (name : String) (v : Cell) : DF :=
  match df.cols.findIdx? (fun x => x == name) with
  | some i => ⟨df.cols, df.rows.map (fun r => r.set i v)⟩
  | none => ⟨df.cols ++ [name], df.rows.map (fun r => r ++ [v])⟩

/-- The hard-coded numeric column list of `clean_csv`. -/
def numeric_cols : List String :=
  ["quantity", "unit_price", "cost_price", "total_amount", "tax_amount"]

/-- The stages of `clean_csv` before validation: detect-or-accept profile,
look its mapping up (an explicit unknown profile name raises `KeyError`,
modelled as `none`), fuzzy-match, rename, clean dates, clean numerics. -/
def preprocess (scorer : String → String → Nat)
    (parse : String → Option ℚ)
    (toDatetime : List Cell → Option (List Cell))
    (cmpNow : List Cell → Option (List Bool))
    (strftime : List Cell → Option (List Cell))
    (mappings : List (String × List (String × String)))
    (df : DF) (erp_system : Option String) : Option DF :=
  let erp := match erp_system with
    | some e => e
    | none => (detect_erp_system mappings df.cols).1
  match mappings.lookup erp with
  | none => none
  | some erp_mapping =>
    let column_mapping := (fuzzy_match_columns scorer df.cols erp_mapping).1
    let df1 := renameCols df column_mapping
    let df2 := if "transaction_date" ∈ df1.cols then
        clean_dates toDatetime cmpNow strftime df1 "transaction_date"
      else df1
    let df3 := numeric_cols.foldl
      (fun d c => if c ∈ d.cols then clean_numeric parse d c else d) df2
    some df3

/-- `clean_csv` (lines 189–262): preprocess, validate, stamp the two
provenance columns (`loaded_at`, `source_file`), return the clean table
and (as the code prints it) the quality report.  Raised errors
propagate. -/
def clean_csv (scorer : String → String → Nat)
    (parse : String → Option ℚ)
    (toDatetime : List Cell → Option (List Cell))
    (cmpNow : List Cell → Option (List Bool))
    (strftime : List Cell → Option (List Cell))
    (mappings : List (String × List (String × String)))
    (df : DF) (erp_system : Option String)
    (loaded_at source_file : String) : Except VErr (DF × QReport) :=
  match preprocess scorer parse toDatetime cmpNow strftime mappings df
      erp_system with
  | none => Except.error VErr.keyError
  | some df3 =>
    match validate_data_quality df3 with
    | Except.error e => Except.error e
    | Except.ok s =>
      let df4 := addCol s.1 "loaded_at" (Cell.str loaded_at)
      let df5 := addCol df4 "source_file" (Cell.str source_file)
      Except.ok (df5, s.2)

/-- The renamed header list after column matching, as the statement-level
shorthand for what `df.rename(columns=...)` does to the header row. -/
def renamedCols (cols : List String) (mapping : List (String × String)) :
    List String :=
  cols.map (fun c => (mapping.lookup c).getD c)

/-- C2 witness table whose single row is removed by the quantity rule. -/
def vdfq : DF := ⟨["quantity"], [[Cell.num 0]]⟩

/-- A table with all required fields and one fully valid row. -/
def vdfok : DF :=
  ⟨required_fields,
   [[Cell.str "T1", Cell.str "2024-01-01", Cell.str "Acme",
     Cell.str "Widget", Cell.num 2, Cell.num 3, Cell.num 6]]⟩

/-- The report produced for `vdfok`. -/
def qrep1 : QReport := ⟨1, [], 0, 1⟩

/-- C9 witness margin table: one row with cost 10 > price 5. -/
def c9df : DF := ⟨["cost_price", "unit_price"], [[Cell.num 10, Cell.num 5]]⟩

/-- An empty report for the C9 witness. -/
def qrep0 : QReport := ⟨1, [], 0, 0⟩

/-! ### C4: output columns of `clean_csv` -/
/-- A scorer under which nothing fuzzy-matches (all exact matches here). -/
def zeroScorer : String → String → Nat := fun _ _ => 0

/-- A numeric parser rejecting every string (unused on numeric cells). -/
def noParse : String → Option ℚ := fun _ => none

/-- A `to_datetime` that succeeds returning the column unchanged. -/
def idDT : List Cell → Option (List Cell) := fun c => some c

/-- A now-comparison marking no row as future. -/
def allPast : List Cell → Option (List Bool) :=
  fun c => some (c.map (fun _ => false))

/-- A `strftime` that succeeds returning the column unchanged. -/
def idSF : List Cell → Option (List Cell) := fun c => some c

/-- C4 counterexample input: gofrugal's exact columns plus one extra
source column `zzz_extra_raw` that maps to no canonical field. -/
def c4df : DF :=
  ⟨["bill_no", "bill_date", "customer", "item_name", "qty", "rate",
    "amount", "zzz_extra_raw"],
   [[Cell.str "T1", Cell.str "2024-01-01", Cell.str "Acme",
     Cell.str "Widget", Cell.num 5, Cell.num 10, Cell.num 50, Cell.num 1]]⟩

/-- The table `clean_csv` returns for `c4df`: the unmapped source column
survives, renamed columns plus the two provenance columns. -/
def c4out : DF :=
  ⟨["transaction_id", "transaction_date", "customer_name", "product_name",
    "quantity", "unit_price", "total_amount", "zzz_extra_raw",
    "loaded_at", "source_file"],
   [[Cell.str "T1", Cell.str "2024-01-01", Cell.str "Acme",
     Cell.str "Widget", Cell.num 5, Cell.num 10, Cell.num 50, Cell.num 1,
     Cell.str "2024-06-01T00:00:00", Cell.str "input.csv"]]⟩

/-- The report `clean_csv` returns for `c4df`. -/
def c4rep : QReport := ⟨1, [], 0, 1⟩

/-! ### Theorems -/

theorem fmStep_eq_bindsTo (scorer : String → String → Nat)
    (df_columns : List String) (acc : List (String × String) × List String)
    (p : String × String) :
    fmStep scorer df_columns acc p =
      match bindsTo scorer df_columns p.2 with
      | some h => (insertAssoc acc.1 h p.1, acc.2)
      | none => (acc.1, acc.2 ++ [p.1]) := by
  unfold fmStep bindsTo
  by_cases hmem : p.2 ∈ df_columns
  · simp [hmem]
  · simp only [hmem, if_false, if_neg]
    cases extractOne scorer p.2 df_columns 70 <;> simp

/-! ### Lemmas about `extractOne` and `insertAssoc` -/
theorem foldl_pick_mem {α : Type} (pick : Option α → α → Option α)
    (hpick : ∀ acc p, pick acc p = some p ∨ pick acc p = acc)
    (l : List α) (acc : Option α) (p : α)
    (h : l.foldl pick acc = some p) : p ∈ l ∨ acc = some p := by
  induction l generalizing acc with
  | nil => exact Or.inr h
  | cons q qs ih =>
    rcases ih (pick acc q) h with hmem | hacc
    · exact Or.inl (List.mem_cons_of_mem _ hmem)
    · rcases hpick acc q with heq | heq
      · rw [heq] at hacc
        exact Or.inl (by simp [Option.some.injEq] at hacc; simp [hacc])
      · exact Or.inr (heq ▸ hacc)

theorem extractOne_some (scorer : String → String → Nat) (query : String)
    (choices : List String) (cutoff : Nat) (h s : _)
    (heq : extractOne scorer query choices cutoff = some (h, s)) :
    h ∈ choices ∧ s = scorer query h ∧ cutoff ≤ s := by
  unfold extractOne at heq
  have hm := foldl_pick_mem _ (fun acc p => by
      cases acc with
      | none => exact Or.inl rfl
      | some b =>
        by_cases hlt : b.2 < p.2
        · exact Or.inl (by simp [hlt])
        · exact Or.inr (by simp [hlt])) _ _ _ heq
  rcases hm with hm | hm
  · rw [List.mem_filter, List.mem_map] at hm
    obtain ⟨⟨c, hc, hcp⟩, hcut⟩ := hm
    cases hcp
    exact ⟨hc, rfl, by simpa using hcut⟩
  · cases hm

theorem extractOne_none (scorer : String → String → Nat) (query : String)
    (choices : List String) (cutoff : Nat)
    (hlow : ∀ c ∈ choices, scorer query c < cutoff) :
    extractOne scorer query choices cutoff = none := by
  unfold extractOne
  have : (choices.map (fun c => (c, scorer query c))).filter
      (fun p => cutoff ≤ p.2) = [] := by
    rw [List.filter_eq_nil_iff]
    intro p hp
    rw [List.mem_map] at hp
    obtain ⟨c, hc, hcp⟩ := hp
    cases hcp
    simpa using Nat.not_le.mpr (hlow c hc)
  rw [this]
  rfl

theorem insertAssoc_mem (m : List (String × String)) (k v : String)
    (h f : String) (hmem : (h, f) ∈ insertAssoc m k v) :
    (h, f) ∈ m ∨ (h = k ∧ f = v) := by
  induction m with
  | nil => simp [insertAssoc] at hmem; exact Or.inr hmem
  | cons q qs ih =>
    unfold insertAssoc at hmem
    by_cases hk : q.1 = k
    · rw [if_pos hk] at hmem
      rcases List.mem_cons.mp hmem with heq | hmem
      · exact Or.inr (by simpa using heq)
      · exact Or.inl (List.mem_cons_of_mem _ hmem)
    · rw [if_neg hk] at hmem
      rcases List.mem_cons.mp hmem with heq | hmem
      · exact Or.inl (heq ▸ List.mem_cons_self _ _)
      · rcases ih hmem with hin | hkv
        · exact Or.inl (List.mem_cons_of_mem _ hin)
        · exact Or.inr hkv

theorem insertAssoc_keys (m : List (String × String)) (k v : String) :
    (insertAssoc m k v).map Prod.fst = m.map Prod.fst ∨
    (insertAssoc m k v).map Prod.fst = m.map Prod.fst ++ [k] := by
  induction m with
  | nil => simp [insertAssoc]
  | cons q qs ih =>
    unfold insertAssoc
    by_cases hk : q.1 = k
    · rw [if_pos hk]
      exact Or.inl (by simp [hk])
    · rw [if_neg hk]
      rcases ih with h | h
      · exact Or.inl (by simp [h])
      · exact Or.inr (by simp [h])

theorem insertAssoc_keys_nodup (m : List (String × String)) (k v : String)
    (hnd : (m.map Prod.fst).Nodup) :
    ((insertAssoc m k v).map Prod.fst).Nodup := by
  induction m with
  | nil => simp [insertAssoc]
  | cons q qs ih =>
    simp only [List.map_cons, List.nodup_cons] at hnd
    unfold insertAssoc
    by_cases hk : q.1 = k
    · rw [if_pos hk]
      simpa [hk] using hnd
    · rw [if_neg hk]
      simp only [List.map_cons, List.nodup_cons]
      refine ⟨?_, ih hnd.2⟩
      intro hq1
      rcases insertAssoc_keys qs k v with h | h
      · rw [h] at hq1
        exact hnd.1 hq1
      · rw [h, List.mem_append] at hq1
        rcases hq1 with hq1 | hq1
        · exact hnd.1 hq1
        · exact hk (by simpa using hq1)

theorem insertAssoc_values_sub (m : List (String × String)) (k v : String) :
    ∀ x ∈ (insertAssoc m k v).map Prod.snd, x = v ∨ x ∈ m.map Prod.snd := by
  induction m with
  | nil => simp [insertAssoc]
  | cons q qs ih =>
    intro x hx
    unfold insertAssoc at hx
    by_cases hk : q.1 = k
    · rw [if_pos hk] at hx
      simp only [List.map_cons, List.mem_cons] at hx
      rcases hx with hx | hx
      · exact Or.inl hx
      · exact Or.inr (by simp [hx])
    · rw [if_neg hk] at hx
      simp only [List.map_cons, List.mem_cons] at hx
      rcases hx with hx | hx
      · exact Or.inr (by simp [hx])
      · rcases ih x hx with hxv | hxm
        · exact Or.inl hxv
        · exact Or.inr (List.mem_cons_of_mem _ hxm)

theorem insertAssoc_values_nodup (m : List (String × String)) (k v : String)
    (hnd : (m.map Prod.snd).Nodup) (hv : v ∉ m.map Prod.snd) :
    ((insertAssoc m k v).map Prod.snd).Nodup := by
  induction m with
  | nil => simp [insertAssoc]
  | cons q qs ih =>
    simp only [List.map_cons, List.nodup_cons] at hnd
    simp only [List.map_cons, List.mem_cons, not_or] at hv
    unfold insertAssoc
    by_cases hk : q.1 = k
    · rw [if_pos hk]
      simp only [List.map_cons, List.nodup_cons]
      exact ⟨hv.2, hnd.2⟩
    · rw [if_neg hk]
      simp only [List.map_cons, List.nodup_cons]
      refine ⟨?_, ih hnd.2 hv.2⟩
      intro hq2
      rcases insertAssoc_values_sub qs k v q.2 hq2 with heq | hmem
      · exact hv.1 heq.symm
      · exact hnd.1 hmem

/-! ### Structure of the `fuzzy_match_columns` fold -/
theorem fm_fold_mem_matched (scorer : String → String → Nat)
    (cols : List String) (mapping : List (String × String))
    (acc : List (String × String) × List String) (h f : String)
    (hmem : (h, f) ∈ (mapping.foldl (fmStep scorer cols) acc).1) :
    (h, f) ∈ acc.1 ∨
      ∃ e, (f, e) ∈ mapping ∧ bindsTo scorer cols e = some h := by
  induction mapping generalizing acc with
  | nil => exact Or.inl hmem
  | cons p ps ih =>
    rw [List.foldl_cons] at hmem
    rcases ih (fmStep scorer cols acc p) hmem with hacc | ⟨e, he, hb⟩
    · rw [fmStep_eq_bindsTo] at hacc
      cases hbp : bindsTo scorer cols p.2 with
      | none =>
        rw [hbp] at hacc
        exact Or.inl hacc
      | some h0 =>
        rw [hbp] at hacc
        rcases insertAssoc_mem _ _ _ _ _ hacc with hin | ⟨hh, hf⟩
        · exact Or.inl hin
        · subst hh; subst hf
          exact Or.inr ⟨p.2, by simp, hbp⟩
    · exact Or.inr ⟨e, List.mem_cons_of_mem _ he, hb⟩

theorem fm_fold_unmatched_mono (scorer : String → String → Nat)
    (cols : List String) (mapping : List (String × String))
    (acc : List (String × String) × List String) (f : String)
    (hmem : f ∈ acc.2) : f ∈ (mapping.foldl (fmStep scorer cols) acc).2 := by
  induction mapping generalizing acc with
  | nil => exact hmem
  | cons p ps ih =>
    rw [List.foldl_cons]
    apply ih
    rw [fmStep_eq_bindsTo]
    cases bindsTo scorer cols p.2 with
    | none => simpa using Or.inl hmem
    | some h0 => exact hmem

theorem fm_fold_unmatched_of (scorer : String → String → Nat)
    (cols : List String) (mapping : List (String × String))
    (acc : List (String × String) × List String) (f e : String)
    (hmem : (f, e) ∈ mapping) (hb : bindsTo scorer cols e = none) :
    f ∈ (mapping.foldl (fmStep scorer cols) acc).2 := by
  induction mapping generalizing acc with
  | nil => cases hmem
  | cons p ps ih =>
    rw [List.foldl_cons]
    rcases List.mem_cons.mp hmem with heq | hmem
    · apply fm_fold_unmatched_mono
      rw [fmStep_eq_bindsTo]
      have hp2 : p.2 = e := by rw [← heq]
      have hp1 : p.1 = f := by rw [← heq]
      rw [hp2, hb, hp1]
      simp
    · exact ih _ hmem

theorem fm_fold_keys_nodup (scorer : String → String → Nat)
    (cols : List String) (mapping : List (String × String))
    (acc : List (String × String) × List String)
    (hnd : (acc.1.map Prod.fst).Nodup) :
    (((mapping.foldl (fmStep scorer cols) acc).1).map Prod.fst).Nodup := by
  induction mapping generalizing acc with
  | nil => exact hnd
  | cons p ps ih =>
    rw [List.foldl_cons]
    apply ih
    rw [fmStep_eq_bindsTo]
    cases bindsTo scorer cols p.2 with
    | none => exact hnd
    | some h0 => exact insertAssoc_keys_nodup _ _ _ hnd

theorem fm_fold_values_nodup (scorer : String → String → Nat)
    (cols : List String) (mapping : List (String × String))
    (acc : List (String × String) × List String)
    (hnd : (acc.1.map Prod.snd).Nodup)
    (hmn : (mapping.map Prod.fst).Nodup)
    (hdisj : ∀ x ∈ acc.1.map Prod.snd, x ∉ mapping.map Prod.fst) :
    (((mapping.foldl (fmStep scorer cols) acc).1).map Prod.snd).Nodup := by
  induction mapping generalizing acc with
  | nil => exact hnd
  | cons p ps ih =>
    simp only [List.map_cons, List.nodup_cons] at hmn
    rw [List.foldl_cons]
    have hp1new : p.1 ∉ acc.1.map Prod.snd := by
      intro hx
      exact hdisj p.1 hx (by simp)
    apply ih
    · rw [fmStep_eq_bindsTo]
      cases bindsTo scorer cols p.2 with
      | none => exact hnd
      | some h0 => exact insertAssoc_values_nodup _ _ _ hnd hp1new
    · exact hmn.2
    · intro x hx
      rw [fmStep_eq_bindsTo] at hx
      cases hbp : bindsTo scorer cols p.2 with
      | none =>
        rw [hbp] at hx
        exact fun hmem => hdisj x hx (List.mem_cons_of_mem _ hmem)
      | some h0 =>
        rw [hbp] at hx
        rcases insertAssoc_values_sub _ _ _ _ hx with heq | hmem
        · subst heq
          exact hmn.1
        · exact fun hin => hdisj x hmem (List.mem_cons_of_mem _ hin)

theorem assoc_keys_nodup_unique (l : List (String × String)) (f e e' : String)
    (hnd : (l.map Prod.fst).Nodup) (h1 : (f, e) ∈ l) (h2 : (f, e') ∈ l) :
    e = e' := by
  induction l with
  | nil => cases h1
  | cons p ps ih =>
    simp only [List.map_cons, List.nodup_cons] at hnd
    rcases List.mem_cons.mp h1 with heq1 | hm1 <;>
      rcases List.mem_cons.mp h2 with heq2 | hm2
    · subst heq1
      exact ((by simpa using heq2 : e' = e ∧ True).1).symm
    · subst heq1
      exact absurd (List.mem_map.mpr ⟨(f, e'), hm2, rfl⟩) hnd.1
    · subst heq2
      exact absurd (List.mem_map.mpr ⟨(f, e), hm1, rfl⟩) hnd.1
    · exact ih hnd.2 hm1 hm2

/-- C1 (counterexample): `fuzzy_match_columns` does NOT remove a matched
header from the candidate pool.  Header `AX` is fuzzy-matched for field
`f1`, then matched again for `f2`, overwriting the binding: in the result
`f1` is bound to no header yet also absent from the unmatched list, so
the claimed "matched or reported unmatched, with consumed headers removed
from the pool" accounting fails at this concrete input. -/
theorem C1_pool_removal_counterexample :
    ("f1", "AA") ∈ c1Mapping ∧
    fuzzy_match_columns c1Scorer ["AX"] c1Mapping = ([("AX", "f2")], []) ∧
    "f1" ∉ (fuzzy_match_columns c1Scorer ["AX"] c1Mapping).1.map Prod.snd ∧
    "f1" ∉ (fuzzy_match_columns c1Scorer ["AX"] c1Mapping).2 := by
  refine ⟨by decide, by decide, by decide, by decide⟩

/-- C1 (amended): the final mapping returned by `fuzzy_match_columns` is a
partial injection — no header appears twice as a key and no canonical
field appears twice as a value (for a profile mapping with distinct
canonical fields, as a Python dict guarantees) — but a header matched for
one canonical field stays in the candidate pool; when a later field fuzzy-
matches the same header, the earlier binding is silently overwritten, so
the earlier field is neither bound nor reported unmatched. -/
theorem C1_injective_binding_amended (scorer : String → String → Nat)
    (cols : List String) (mapping : List (String × String))
    (hnd : (mapping.map Prod.fst).Nodup) :
    ((fuzzy_match_columns scorer cols mapping).1.map Prod.fst).Nodup ∧
    ((fuzzy_match_columns scorer cols mapping).1.map Prod.snd).Nodup := by
  constructor
  · exact fm_fold_keys_nodup scorer cols mapping ([], []) (by simp)
  · exact fm_fold_values_nodup scorer cols mapping ([], []) (by simp) hnd
      (by simp)

/-- C1 witness: the amended injectivity theorem evaluated at the
counterexample input. -/
theorem C1_injective_binding_witness :
    ((fuzzy_match_columns c1Scorer ["AX"] c1Mapping).1.map Prod.fst).Nodup ∧
    ((fuzzy_match_columns c1Scorer ["AX"] c1Mapping).1.map Prod.snd).Nodup :=
  C1_injective_binding_amended c1Scorer ["AX"] c1Mapping (by decide)

/-- C6: a canonical field whose expected column has no exact match among
the table headers and whose similarity score is below 70 against every
header lands in the unmatched list and is bound to no header; conversely a
fuzzy candidate is accepted only with score ≥ 70 (and the scored header
really is a table header). -/
theorem C6_fuzzy_threshold (scorer : String → String → Nat)
    (cols : List String) (mapping : List (String × String)) (f e : String)
    (hnd : (mapping.map Prod.fst).Nodup) (hmem : (f, e) ∈ mapping)
    (hnx : e ∉ cols) :
    ((∀ h ∈ cols, scorer e h < 70) →
      f ∈ (fuzzy_match_columns scorer cols mapping).2 ∧
      ∀ h, (h, f) ∉ (fuzzy_match_columns scorer cols mapping).1) ∧
    (∀ h, (h, f) ∈ (fuzzy_match_columns scorer cols mapping).1 →
      h ∈ cols ∧ 70 ≤ scorer e h) := by
  constructor
  · intro hlow
    have hbnone : bindsTo scorer cols e = none := by
      unfold bindsTo
      rw [if_neg hnx, extractOne_none scorer e cols 70 hlow]
    constructor
    · exact fm_fold_unmatched_of scorer cols mapping ([], []) f e hmem hbnone
    · intro h hj
      rcases fm_fold_mem_matched scorer cols mapping ([], []) h f hj with
        hin | ⟨e', he', hb⟩
      · cases hin
      · rw [assoc_keys_nodup_unique mapping f e e' hnd hmem he'] at hbnone
        rw [hbnone] at hb
        cases hb
  · intro h hj
    rcases fm_fold_mem_matched scorer cols mapping ([], []) h f hj with
      hin | ⟨e', he', hb⟩
    · cases hin
    · have hee : e = e' := assoc_keys_nodup_unique mapping f e e' hnd hmem he'
      subst hee
      unfold bindsTo at hb
      rw [if_neg hnx] at hb
      cases hext : extractOne scorer e cols 70 with
      | none => rw [hext] at hb; cases hb
      | some bm =>
        rw [hext] at hb
        have hbm : bm.1 = h := by
          simpa using hb
        obtain ⟨hin, hs, hcut⟩ :=
          extractOne_some scorer e cols 70 bm.1 bm.2 (by rw [← hext])
        rw [hbm] at hin
        refine ⟨hin, ?_⟩
        rw [hbm] at hs
        rw [← hs]
        exact hcut

/-- C6 witness: with one header `foo`, expected column `qty` absent, and a
scorer that scores every pair 10 (< 70), the canonical field `quantity`
is reported unmatched. -/
theorem C6_fuzzy_threshold_witness :
    "quantity" ∈ (fuzzy_match_columns (fun _ _ => 10) ["foo"]
      [("quantity", "qty")]).2 :=
  ((C6_fuzzy_threshold (fun _ _ => 10) ["foo"] [("quantity", "qty")]
    "quantity" "qty" (by decide) (by decide) (by decide)).1
    (fun h _ => by decide)).1

theorem profile_matches_congr (c1 c2 : List String)
    (h : ∀ c, c1.contains c = c2.contains c) (m : List (String × String)) :
    profile_matches c1 m = profile_matches c2 m := by
  unfold profile_matches
  exact List.countP_congr (fun a _ => by rw [h a])

theorem detect_congr (mappings : List (String × List (String × String)))
    (c1 c2 : List String) (h : ∀ c, c1.contains c = c2.contains c) :
    detect_erp_system mappings c1 = detect_erp_system mappings c2 := by
  unfold detect_erp_system
  have hs : mappings.map (fun p => (p.1, profile_matches c1 p.2)) =
      mappings.map (fun p => (p.1, profile_matches c2 p.2)) := by
    apply List.map_congr_left
    intro p _
    rw [profile_matches_congr c1 c2 h]
  rw [hs]

theorem profile_confidence_congr
    (mappings : List (String × List (String × String)))
    (c1 c2 : List String) (h : ∀ c, c1.contains c = c2.contains c)
    (name : String) :
    profile_confidence mappings c1 name = profile_confidence mappings c2 name := by
  unfold profile_confidence
  cases mappings.lookup name with
  | none => rfl
  | some m => simp [profile_matches_congr c1 c2 h]

/-- C5: for every table whose headers are exactly (as a set) a registered
profile's expected column names, `detect_erp_system` selects that profile,
the computed confidence is 1, and every other registered profile's
matches/size ratio is strictly below 1.  (spec-modelled registry: the
concrete profile data lives in `config/universal_schema.yaml`, outside
the source tree.) -/
theorem pc_eval (cols : List String) (name : String)
    (m : List (String × String)) (hl : erp_mappings.lookup name = some m) :
    profile_confidence erp_mappings cols name =
      (profile_matches cols m : ℚ) / (m.length : ℚ) := by
  unfold profile_confidence
  rw [hl]

theorem detect_gf_conf :
    (detect_erp_system erp_mappings (gfMap.map Prod.snd)).2 = 1 := by
  have hfm : firstMax (erp_mappings.map
      (fun p => (p.1, profile_matches (List.map Prod.snd gfMap) p.2))) =
      some ("gofrugal", 7) := by decide
  have hl : erp_mappings.lookup "gofrugal" = some gfMap := rfl
  simp only [detect_erp_system, hfm, Option.getD_some, hl]
  norm_num [gfMap]

theorem detect_tally_conf :
    (detect_erp_system erp_mappings (tallyMap.map Prod.snd)).2 = 1 := by
  have hfm : firstMax (erp_mappings.map
      (fun p => (p.1, profile_matches (List.map Prod.snd tallyMap) p.2))) =
      some ("tally", 7) := by decide
  have hl : erp_mappings.lookup "tally" = some tallyMap := rfl
  simp only [detect_erp_system, hfm, Option.getD_some, hl]
  norm_num [tallyMap]

theorem C5_exact_headers_confidence (name : String)
    (m : List (String × String)) (columns : List String)
    (hmem : (name, m) ∈ erp_mappings)
    (hset : ∀ c, columns.contains c = (m.map Prod.snd).contains c) :
    (detect_erp_system erp_mappings columns).1 = name ∧
    (detect_erp_system erp_mappings columns).2 = 1 ∧
    profile_confidence erp_mappings columns name = 1 ∧
    (∀ name' m', (name', m') ∈ erp_mappings → name' ≠ name →
      profile_confidence erp_mappings columns name' < 1) := by
  have hmem' : name = "gofrugal" ∧ m = gfMap ∨
      name = "tally" ∧ m = tallyMap := by
    simpa [erp_mappings, Prod.ext_iff] using hmem
  rcases hmem' with ⟨hn, hm⟩ | ⟨hn, hm⟩
  · subst hn; subst hm
    rw [detect_congr erp_mappings columns _ hset]
    refine ⟨by decide, detect_gf_conf, ?_, ?_⟩
    · rw [profile_confidence_congr erp_mappings columns _ hset,
        pc_eval _ "gofrugal" gfMap rfl]
      have h7 : profile_matches (gfMap.map Prod.snd) gfMap = 7 := by decide
      rw [h7]
      norm_num [gfMap]
    · intro name' m' hmem2 hne
      have hmem2' : name' = "gofrugal" ∧ m' = gfMap ∨
          name' = "tally" ∧ m' = tallyMap := by
        simpa [erp_mappings, Prod.ext_iff] using hmem2
      rcases hmem2' with ⟨hn2, _⟩ | ⟨hn2, _⟩
      · exact absurd hn2 hne
      · subst hn2
        rw [profile_confidence_congr erp_mappings columns _ hset,
          pc_eval _ "tally" tallyMap rfl]
        have h1 : profile_matches (gfMap.map Prod.snd) tallyMap = 1 := by decide
        rw [h1]
        norm_num [tallyMap]
  · subst hn; subst hm
    rw [detect_congr erp_mappings columns _ hset]
    refine ⟨by decide, detect_tally_conf, ?_, ?_⟩
    · rw [profile_confidence_congr erp_mappings columns _ hset,
        pc_eval _ "tally" tallyMap rfl]
      have h7 : profile_matches (tallyMap.map Prod.snd) tallyMap = 7 := by decide
      rw [h7]
      norm_num [tallyMap]
    · intro name' m' hmem2 hne
      have hmem2' : name' = "gofrugal" ∧ m' = gfMap ∨
          name' = "tally" ∧ m' = tallyMap := by
        simpa [erp_mappings, Prod.ext_iff] using hmem2
      rcases hmem2' with ⟨hn2, _⟩ | ⟨hn2, _⟩
      · subst hn2
        rw [profile_confidence_congr erp_mappings columns _ hset,
          pc_eval _ "gofrugal" gfMap rfl]
        have h1 : profile_matches (tallyMap.map Prod.snd) gfMap = 1 := by decide
        rw [h1]
        norm_num [gfMap]
      · exact absurd hn2 hne

/-- C5 witness: headers exactly gofrugal's expected columns detect
gofrugal with confidence 1, and tally scores below 1. -/
theorem C5_exact_headers_witness :
    (detect_erp_system erp_mappings
      ["bill_no", "bill_date", "customer", "item_name", "qty", "rate",
       "amount"]).1 = "gofrugal" ∧
    (detect_erp_system erp_mappings
      ["bill_no", "bill_date", "customer", "item_name", "qty", "rate",
       "amount"]).2 = 1 ∧
    profile_confidence erp_mappings
      ["bill_no", "bill_date", "customer", "item_name", "qty", "rate",
       "amount"] "tally" < 1 := by
  have h := C5_exact_headers_confidence "gofrugal" gfMap
    ["bill_no", "bill_date", "customer", "item_name", "qty", "rate", "amount"]
    (by decide) (fun c => rfl)
  exact ⟨h.1, h.2.1, h.2.2.2 "tally" tallyMap (by decide) (by decide)⟩

/-! ### C7: idempotence of the numeric cleaner -/
theorem findIdx_of_mem (cols : List String) (c : String) (hc : c ∈ cols) :
    ∃ i, cols.findIdx? (fun x => x == c) = some i := by
  induction cols with
  | nil => cases hc
  | cons a as ih =>
    by_cases ha : a = c
    · exact ⟨0, by simp [List.findIdx?_cons, ha]⟩
    · rcases List.mem_cons.mp hc with heq | hmem
      · exact absurd heq.symm ha
      · obtain ⟨i, hi⟩ := ih hmem
        refine ⟨i + 1, ?_⟩
        simp [List.findIdx?_cons, ha, hi]

theorem getD_set_self (l : List Cell) (i : Nat) (a : Cell) :
    (l.set i a).getD i Cell.null =
      if i < l.length then a else Cell.null := by
  induction l generalizing i with
  | nil => simp [List.set, List.getD]
  | cons b bs ih =>
    cases i with
    | zero => simp [List.set, List.getD]
    | succ j =>
      simp only [List.set, List.length_cons, Nat.succ_lt_succ_iff]
      simpa [List.getD] using ih j

theorem zipWith_self_map {α β γ : Type} (f : α → β → γ) (h : α → β)
    (l : List α) :
    List.zipWith f l (l.map h) = l.map (fun a => f a (h a)) := by
  induction l with
  | nil => rfl
  | cons a as ih => simp [List.zipWith, ih]

theorem zipWith_set_set (i : Nat) (rows : List (List Cell))
    (v : List Cell) :
    List.zipWith (fun r x => r.set i x)
      (List.zipWith (fun r x => r.set i x) rows v) v =
      List.zipWith (fun r x => r.set i x) rows v := by
  induction rows generalizing v with
  | nil => rfl
  | cons r rs ih =>
    cases v with
    | nil => rfl
    | cons a as => simp [List.zipWith, List.set_set, ih]

theorem setCol_cols (df : DF) (c : String) (v : List Cell) :
    (setCol df c v).cols = df.cols := by
  unfold setCol
  cases df.cols.findIdx? (fun x => x == c) <;> rfl

theorem toNumericCell_not_str (parse : String → Option ℚ) (x : Cell) :
    isStr (toNumericCell parse x) = false := by
  cases x with
  | str s =>
    show isStr (match parse s with
      | some q => Cell.num q
      | none => Cell.null) = false
    cases parse s <;> rfl
  | num q => rfl
  | null => rfl

theorem toNumericCell_id (parse : String → Option ℚ) (x : Cell)
    (hx : isStr x = false) : toNumericCell parse x = x := by
  cases x with
  | str s => cases hx
  | num q => rfl
  | null => rfl

theorem clean_numeric_col_no_str (parse : String → Option ℚ)
    (col : List Cell) (x : Cell) (hx : x ∈ clean_numeric_col parse col) :
    isStr x = false := by
  unfold clean_numeric_col at hx
  rw [List.mem_map] at hx
  obtain ⟨y, _, hy⟩ := hx
  rw [← hy]
  exact toNumericCell_not_str parse y

theorem clean_numeric_col_of_no_str (parse : String → Option ℚ)
    (col : List Cell) (h : hasString col = false) :
    clean_numeric_col parse col = col.map (toNumericCell parse) := by
  unfold clean_numeric_col
  rw [h]
  simp

theorem clean_numeric_col_idem (parse : String → Option ℚ)
    (col : List Cell) :
    clean_numeric_col parse (clean_numeric_col parse col) =
      clean_numeric_col parse col := by
  have hns : hasString (clean_numeric_col parse col) = false := by
    unfold hasString
    rw [List.any_eq_false]
    intro x hx
    rw [clean_numeric_col_no_str parse col x hx]
    exact Bool.false_ne_true
  rw [clean_numeric_col_of_no_str parse _ hns]
  conv_rhs => rw [show clean_numeric_col parse col =
    (clean_numeric_col parse col).map id from (List.map_id _).symm]
  apply List.map_congr_left
  intro x hx
  exact toNumericCell_id parse x (clean_numeric_col_no_str parse col x hx)

theorem clean_numeric_col_as_map (parse : String → Option ℚ)
    (col : List Cell) :
    ∃ g : Cell → Cell, g Cell.null = Cell.null ∧
      clean_numeric_col parse col = col.map g := by
  unfold clean_numeric_col
  by_cases hs : hasString col
  · exact ⟨fun x => toNumericCell parse (stripCell x), rfl,
      by rw [if_pos hs, List.map_map]; rfl⟩
  · exact ⟨toNumericCell parse, rfl, by rw [if_neg hs]⟩

theorem getCol_eq (df : DF) (c : String) (i : Nat)
    (hi : df.cols.findIdx? (fun x => x == c) = some i) :
    getCol df c = df.rows.map (fun r => r.getD i Cell.null) := by
  unfold getCol getCell
  rw [hi]

theorem getCol_setCol_map (df : DF) (c : String) (i : Nat)
    (hi : df.cols.findIdx? (fun x => x == c) = some i)
    (g : Cell → Cell) (hg : g Cell.null = Cell.null) :
    getCol (setCol df c ((getCol df c).map g)) c = (getCol df c).map g := by
  have hset : setCol df c ((getCol df c).map g) =
      ⟨df.cols, df.rows.zipWith (fun r x => r.set i x)
        ((getCol df c).map g)⟩ := by
    unfold setCol
    rw [hi]
  rw [hset, getCol_eq _ c i (by exact hi), getCol_eq df c i hi, List.map_map]
  show (List.zipWith (fun r x => r.set i x) df.rows
      (df.rows.map (fun r => g (r.getD i Cell.null)))).map
      (fun r => r.getD i Cell.null) = _
  rw [zipWith_self_map, List.map_map]
  apply List.map_congr_left
  intro r _
  show (r.set i (g (r.getD i Cell.null))).getD i Cell.null =
    g (r.getD i Cell.null)
  rw [getD_set_self]
  by_cases hlen : i < r.length
  · rw [if_pos hlen]
  · rw [if_neg hlen]
    have : r.getD i Cell.null = Cell.null := by
      unfold List.getD
      rw [List.get?_eq_none.mpr (by omega)]
      rfl
    rw [this, hg]

theorem setCol_setCol_same (df : DF) (c : String) (v : List Cell) :
    setCol (setCol df c v) c v = setCol df c v := by
  unfold setCol
  cases hidx : df.cols.findIdx? (fun x => x == c) with
  | none => simp [hidx]
  | some i => simp [hidx, zipWith_set_set]

/-- C7: the numeric cleaner is idempotent — applying `clean_numeric` twice
to the same column of a table is the same as applying it once, for every
behaviour of the underlying numeric string parser. -/
theorem C7_clean_numeric_idempotent (parse : String → Option ℚ) (df : DF)
    (c : String) (hc : c ∈ df.cols) :
    clean_numeric parse (clean_numeric parse df c) c =
      clean_numeric parse df c := by
  obtain ⟨i, hi⟩ := findIdx_of_mem df.cols c hc
  obtain ⟨g, hg, hmap⟩ := clean_numeric_col_as_map parse (getCol df c)
  have hB : getCol (setCol df c (clean_numeric_col parse (getCol df c))) c =
      clean_numeric_col parse (getCol df c) := by
    rw [hmap]
    exact getCol_setCol_map df c i hi g hg
  show setCol (setCol df c (clean_numeric_col parse (getCol df c))) c
      (clean_numeric_col parse
        (getCol (setCol df c (clean_numeric_col parse (getCol df c))) c)) =
    setCol df c (clean_numeric_col parse (getCol df c))
  rw [hB, clean_numeric_col_idem]
  exact setCol_setCol_same df c _

/-- C7 witness: idempotence at a one-column table holding the string cell
`"₹1,200"` with a parser that rejects every string. -/
theorem C7_clean_numeric_witness :
    clean_numeric (fun _ => none)
      (clean_numeric (fun _ => none)
        ⟨["quantity"], [[Cell.str "₹1,200"]]⟩ "quantity") "quantity" =
      clean_numeric (fun _ => none)
        ⟨["quantity"], [[Cell.str "₹1,200"]]⟩ "quantity" :=
  C7_clean_numeric_idempotent (fun _ => none)
    ⟨["quantity"], [[Cell.str "₹1,200"]]⟩ "quantity" (by decide)

/-- C8 (counterexample): an error raised inside `clean_dates` after the
in-place `df[date_col] = pd.to_datetime(...)` assignment is caught, but
the returned table does NOT have the date column unchanged — it keeps the
parsed values written before the failing comparison step. -/
theorem C8_noop_counterexample :
    clean_dates_raised c8toDT c8cmp c8sf c8df "transaction_date" = true ∧
    clean_dates c8toDT c8cmp c8sf c8df "transaction_date" ≠ c8df ∧
    clean_dates c8toDT c8cmp c8sf c8df "transaction_date" =
      ⟨["transaction_date"],
       [[Cell.str "Timestamp 2030-01-01 00:00:00+05:30"]]⟩ := by
  refine ⟨rfl, by decide, rfl⟩

/-- C8 (amended): the errors-degrade-to-no-op guarantee of `clean_dates`
holds only for the initial whole-column parse call: when
`pd.to_datetime` raises, the table is returned unchanged; when a later
step raises (after the in-place assignment of the parsed column), the
error is still caught and swallowed, but the returned table keeps the
mutations already applied — in particular the parsed date column. -/
theorem C8_noop_amended (toDatetime : List Cell → Option (List Cell))
    (cmpNow : List Cell → Option (List Bool))
    (strftime : List Cell → Option (List Cell)) (df : DF) (c : String) :
    (toDatetime (getCol df c) = none →
      clean_dates toDatetime cmpNow strftime df c = df) ∧
    (∀ parsed, toDatetime (getCol df c) = some parsed →
      cmpNow (getCol (setCol df c parsed) c) = none →
      clean_dates toDatetime cmpNow strftime df c = setCol df c parsed) := by
  constructor
  · intro h
    unfold clean_dates
    rw [h]
  · intro parsed hp hcmp
    unfold clean_dates
    rw [hp]
    simp only [hcmp]

/-- C8 witness: the amended no-op and mutated-state guarantees evaluated
at the counterexample input (parse failure leaves the table untouched;
comparison failure returns the parsed-column state). -/
theorem C8_noop_witness :
    clean_dates (fun _ => none) c8cmp c8sf c8df "transaction_date" = c8df ∧
    clean_dates c8toDT c8cmp c8sf c8df "transaction_date" =
      setCol c8df "transaction_date"
        [Cell.str "Timestamp 2030-01-01 00:00:00+05:30"] :=
  ⟨(C8_noop_amended (fun _ => none) c8cmp c8sf c8df "transaction_date").1 rfl,
   (C8_noop_amended c8toDT c8cmp c8sf c8df "transaction_date").2
     [Cell.str "Timestamp 2030-01-01 00:00:00+05:30"] rfl rfl⟩

theorem reportExt_refl (r : QReport) : reportExt r r := ⟨rfl, rfl, rfl⟩

theorem reportExt_trans (a b c : QReport) (h1 : reportExt a b)
    (h2 : reportExt b c) : reportExt a c :=
  ⟨h2.1.trans h1.1, h2.2.1.trans h1.2.1, h2.2.2.trans h1.2.2⟩

theorem reportExt_addIssue (r : QReport) (s : String) :
    reportExt r (addIssue r s) := ⟨rfl, rfl, rfl⟩

theorem dedupGo_sublist (cols : List String) (seen : List Cell)
    (rows : List (List Cell)) : List.Sublist (dedupGo cols seen rows) rows := by
  induction rows generalizing seen with
  | nil => exact List.Sublist.refl _
  | cons r rs ih =>
    unfold dedupGo
    by_cases hmem : getCell cols r "transaction_id" ∈ seen
    · rw [if_pos hmem]
      exact (ih seen).trans (List.sublist_cons_self r rs)
    · rw [if_neg hmem]
      exact List.Sublist.cons₂ r (ih _)

theorem dedupGo_ids (cols : List String) (seen : List Cell)
    (rows : List (List Cell)) :
    ((dedupGo cols seen rows).map
      (fun row => getCell cols row "transaction_id")).Nodup ∧
    ∀ x ∈ (dedupGo cols seen rows).map
      (fun row => getCell cols row "transaction_id"), x ∉ seen := by
  induction rows generalizing seen with
  | nil => exact ⟨List.nodup_nil, by simp [dedupGo]⟩
  | cons r rs ih =>
    unfold dedupGo
    by_cases hmem : getCell cols r "transaction_id" ∈ seen
    · rw [if_pos hmem]
      exact ih seen
    · rw [if_neg hmem]
      obtain ⟨hnd, hs⟩ := ih (getCell cols r "transaction_id" :: seen)
      simp only [List.map_cons, List.nodup_cons]
      refine ⟨⟨?_, hnd⟩, ?_⟩
      · intro hin
        exact hs _ hin (List.mem_cons_self _ _)
      · intro x hx
        rcases List.mem_cons.mp hx with heq | hin
        · rw [heq]
          exact hmem
        · intro hseen
          exact hs x hin (List.mem_cons_of_mem _ hseen)

theorem dedupStep_spec (df : DF) (report : QReport) :
    (dedupStep df report).1.cols = df.cols ∧
    List.Sublist (dedupStep df report).1.rows df.rows ∧
    reportExt report (dedupStep df report).2 ∧
    ("transaction_id" ∈ df.cols →
      ((dedupStep df report).1.rows.map
        (fun row => getCell df.cols row "transaction_id")).Nodup) := by
  unfold dedupStep
  by_cases hm : "transaction_id" ∈ df.cols
  · rw [if_pos hm]
    by_cases hlen : (dedupGo df.cols [] df.rows).length ≠ df.rows.length
    · rw [if_pos hlen]
      exact ⟨rfl, dedupGo_sublist _ _ _, reportExt_addIssue _ _,
        fun _ => (dedupGo_ids df.cols [] df.rows).1⟩
    · rw [if_neg hlen]
      push_neg at hlen
      have hEq : dedupGo df.cols [] df.rows = df.rows :=
        (dedupGo_sublist _ _ _).eq_of_length hlen
      refine ⟨rfl, List.Sublist.refl _, reportExt_refl _, fun _ => ?_⟩
      rw [← hEq]
      exact (dedupGo_ids _ _ _).1
  · rw [if_neg hm]
    exact ⟨rfl, List.Sublist.refl _, reportExt_refl _, fun h => absurd h hm⟩

theorem nullStep_spec (acc : DF × QReport) (field : String) :
    (nullStep acc field).1.cols = acc.1.cols ∧
    List.Sublist (nullStep acc field).1.rows acc.1.rows ∧
    reportExt acc.2 (nullStep acc field).2 ∧
    (field ∈ acc.1.cols → ∀ row ∈ (nullStep acc field).1.rows,
      isna (getCell acc.1.cols row field) = false) := by
  unfold nullStep
  by_cases hm : field ∈ acc.1.cols
  · rw [if_pos hm]
    by_cases hany : (getCol acc.1 field).any isna
    · rw [if_pos hany]
      refine ⟨rfl, List.filter_sublist _, reportExt_addIssue _ _,
        fun _ row hrow => ?_⟩
      have := List.of_mem_filter hrow
      simpa using this
    · rw [if_neg hany]
      refine ⟨rfl, List.Sublist.refl _, reportExt_refl _,
        fun _ row hrow => ?_⟩
      simp only [Bool.not_eq_true, List.any_eq_false] at hany
      have := hany (getCell acc.1.cols row field)
        (List.mem_map.mpr ⟨row, hrow, rfl⟩)
      simpa using this
  · rw [if_neg hm]
    exact ⟨rfl, List.Sublist.refl _, reportExt_refl _, fun h => absurd h hm⟩

theorem nullFold_spec (L : List String) (acc : DF × QReport) :
    (L.foldl nullStep acc).1.cols = acc.1.cols ∧
    List.Sublist (L.foldl nullStep acc).1.rows acc.1.rows ∧
    reportExt acc.2 (L.foldl nullStep acc).2 ∧
    (∀ f ∈ L, f ∈ acc.1.cols → ∀ row ∈ (L.foldl nullStep acc).1.rows,
      isna (getCell acc.1.cols row f) = false) := by
  induction L generalizing acc with
  | nil =>
    exact ⟨rfl, List.Sublist.refl _, reportExt_refl _, by simp⟩
  | cons f fs ih =>
    rw [List.foldl_cons]
    obtain ⟨hc1, hs1, hr1, hp1⟩ := nullStep_spec acc f
    obtain ⟨hc2, hs2, hr2, hp2⟩ := ih (nullStep acc f)
    refine ⟨hc2.trans hc1, hs2.trans hs1, reportExt_trans _ _ _ hr1 hr2, ?_⟩
    intro g hg hgcol row hrow
    rcases List.mem_cons.mp hg with heq | hmem
    · subst heq
      exact hp1 hgcol row (hs2.subset hrow)
    · have := hp2 g hmem (by rw [hc1]; exact hgcol) row hrow
      rw [hc1] at this
      exact this

theorem qtyStep_spec (df : DF) (report : QReport) (d : DF) (r : QReport)
    (h : qtyStep df report = Except.ok (d, r)) :
    d.cols = df.cols ∧ List.Sublist d.rows df.rows ∧ reportExt report r ∧
    ("quantity" ∈ df.cols → ∀ row ∈ d.rows,
      qtyInvalid (getCell df.cols row "quantity") = false ∧
      isStr (getCell df.cols row "quantity") = false) := by
  unfold qtyStep at h
  by_cases hm : "quantity" ∈ df.cols
  · rw [if_pos hm] at h
    by_cases hstr : (getCol df "quantity").any isStr
    · rw [if_pos hstr] at h
      cases h
    · rw [if_neg hstr] at h
      simp only [Bool.not_eq_true, List.any_eq_false] at hstr
      by_cases hany : (getCol df "quantity").any qtyInvalid
      · rw [if_pos hany] at h
        injection Except.ok.inj h with hd hr
        subst hd
        subst hr
        refine ⟨rfl, List.filter_sublist _, reportExt_addIssue _ _,
          fun _ row hrow => ?_⟩
        have hfil := List.of_mem_filter hrow
        have hmem := List.mem_of_mem_filter hrow
        refine ⟨by simpa using hfil, ?_⟩
        have := hstr (getCell df.cols row "quantity")
          (List.mem_map.mpr ⟨row, hmem, rfl⟩)
        simpa using this
      · rw [if_neg hany] at h
        injection Except.ok.inj h with hd hr
        subst hd
        subst hr
        simp only [Bool.not_eq_true, List.any_eq_false] at hany
        refine ⟨rfl, List.Sublist.refl _, reportExt_refl _,
          fun _ row hrow => ?_⟩
        constructor
        · have := hany (getCell df.cols row "quantity")
            (List.mem_map.mpr ⟨row, hrow, rfl⟩)
          simpa using this
        · have := hstr (getCell df.cols row "quantity")
            (List.mem_map.mpr ⟨row, hrow, rfl⟩)
          simpa using this
  · rw [if_neg hm] at h
    injection Except.ok.inj h with hd hr
    subst hd
    subst hr
    exact ⟨rfl, List.Sublist.refl _, reportExt_refl _, fun hq => absurd hq hm⟩

theorem priceStep_spec (df : DF) (report : QReport) (d : DF) (r : QReport)
    (h : priceStep df report = Except.ok (d, r)) :
    d.cols = df.cols ∧ List.Sublist d.rows df.rows ∧ reportExt report r ∧
    ("unit_price" ∈ df.cols → ∀ row ∈ d.rows,
      qtyInvalid (getCell df.cols row "unit_price") = false ∧
      isStr (getCell df.cols row "unit_price") = false) := by
  unfold priceStep at h
  by_cases hm : "unit_price" ∈ df.cols
  · rw [if_pos hm] at h
    by_cases hstr : (getCol df "unit_price").any isStr
    · rw [if_pos hstr] at h
      cases h
    · rw [if_neg hstr] at h
      simp only [Bool.not_eq_true, List.any_eq_false] at hstr
      by_cases hany : (getCol df "unit_price").any qtyInvalid
      · rw [if_pos hany] at h
        injection Except.ok.inj h with hd hr
        subst hd
        subst hr
        refine ⟨rfl, List.filter_sublist _, reportExt_addIssue _ _,
          fun _ row hrow => ?_⟩
        have hfil := List.of_mem_filter hrow
        have hmem := List.mem_of_mem_filter hrow
        refine ⟨by simpa using hfil, ?_⟩
        have := hstr (getCell df.cols row "unit_price")
          (List.mem_map.mpr ⟨row, hmem, rfl⟩)
        simpa using this
      · rw [if_neg hany] at h
        injection Except.ok.inj h with hd hr
        subst hd
        subst hr
        simp only [Bool.not_eq_true, List.any_eq_false] at hany
        refine ⟨rfl, List.Sublist.refl _, reportExt_refl _,
          fun _ row hrow => ?_⟩
        constructor
        · have := hany (getCell df.cols row "unit_price")
            (List.mem_map.mpr ⟨row, hrow, rfl⟩)
          simpa using this
        · have := hstr (getCell df.cols row "unit_price")
            (List.mem_map.mpr ⟨row, hrow, rfl⟩)
          simpa using this
  · rw [if_neg hm] at h
    injection Except.ok.inj h with hd hr
    subst hd
    subst hr
    exact ⟨rfl, List.Sublist.refl _, reportExt_refl _, fun hq => absurd hq hm⟩

theorem marginStep_spec (df : DF) (report : QReport) (d : DF) (r : QReport)
    (h : marginStep df report = Except.ok (d, r)) :
    d = df ∧ reportExt report r := by
  unfold marginStep at h
  by_cases hm : "cost_price" ∈ df.cols ∧ "unit_price" ∈ df.cols
  · rw [if_pos hm] at h
    by_cases hraise : ((getCol df "cost_price").zip
        (getCol df "unit_price")).any (fun p => cmpRaises p.1 p.2)
    · rw [if_pos hraise] at h
      cases h
    · rw [if_neg hraise] at h
      by_cases hpos : 0 < negMarginCount df
      · rw [if_pos hpos] at h
        injection Except.ok.inj h with hd hr
        subst hd
        subst hr
        exact ⟨rfl, reportExt_addIssue _ _⟩
      · rw [if_neg hpos] at h
        injection Except.ok.inj h with hd hr
        subst hd
        subst hr
        exact ⟨rfl, reportExt_refl _⟩
  · rw [if_neg hm] at h
    injection Except.ok.inj h with hd hr
    subst hd
    subst hr
    exact ⟨rfl, reportExt_refl _⟩

theorem missingStep_spec (df : DF) (report : QReport) :
    reportExt report (missingStep df report) := by
  unfold missingStep
  by_cases hm : required_fields.filter (fun f => !(df.cols.contains f)) ≠ []
  · rw [if_pos hm]
    exact reportExt_addIssue _ _
  · rw [if_neg hm]
    exact reportExt_refl _

theorem bindE_ok {A B : Type} (x : Except VErr A) (f : A → Except VErr B)
    (b : B) (h : bindE x f = Except.ok b) :
    ∃ a, x = Except.ok a ∧ f a = Except.ok b := by
  cases x with
  | error e => exact Except.noConfusion h
  | ok a => exact ⟨a, rfl, h⟩

theorem bindE_error {A B : Type} (x : Except VErr A) (f : A → Except VErr B)
    (e : VErr) (h : bindE x f = Except.error e) :
    x = Except.error e ∨ ∃ a, x = Except.ok a ∧ f a = Except.error e := by
  cases x with
  | error e2 =>
    unfold bindE at h
    injection h with he
    rw [he]
    exact Or.inl rfl
  | ok a => exact Or.inr ⟨a, rfl, h⟩

theorem validate_rules_spec (df : DF) (d : DF) (r : QReport)
    (h : validate_rules df = Except.ok (d, r)) :
    d.cols = df.cols ∧
    List.Sublist d.rows df.rows ∧
    r.original_rows = df.rows.length ∧
    r.final_rows = d.rows.length ∧
    r.rows_removed = df.rows.length - d.rows.length ∧
    (∀ f ∈ required_fields, f ∈ df.cols → ∀ row ∈ d.rows,
      isna (getCell df.cols row f) = false) ∧
    ("quantity" ∈ df.cols → ∀ row ∈ d.rows,
      qtyInvalid (getCell df.cols row "quantity") = false ∧
      isStr (getCell df.cols row "quantity") = false) ∧
    ("unit_price" ∈ df.cols → ∀ row ∈ d.rows,
      qtyInvalid (getCell df.cols row "unit_price") = false ∧
      isStr (getCell df.cols row "unit_price") = false) ∧
    ("transaction_id" ∈ df.cols →
      (d.rows.map (fun row => getCell df.cols row "transaction_id")).Nodup) := by
  simp only [validate_rules] at h
  obtain ⟨s3, heq, h⟩ := bindE_ok _ _ _ h
  obtain ⟨s4, heq2, h⟩ := bindE_ok _ _ _ h
  obtain ⟨s5, heq3, h⟩ := bindE_ok _ _ _ h
  injection Except.ok.inj h with hd hr
  obtain ⟨hc1, hsub1, hrep1, hid1⟩ :=
    dedupStep_spec df ⟨df.rows.length, [], 0, 0⟩
  obtain ⟨hc2, hsub2, hrep2, hnull2⟩ :=
    nullFold_spec required_fields
      (dedupStep df ⟨df.rows.length, [], 0, 0⟩)
  obtain ⟨hc3, hsub3, hrep3, hqty3⟩ :=
    qtyStep_spec _ _ s3.1 s3.2 (by rw [heq])
  obtain ⟨hc4, hsub4, hrep4, hprice4⟩ :=
    priceStep_spec _ _ s4.1 s4.2 (by rw [heq2])
  obtain ⟨hd5, hrep5⟩ := marginStep_spec _ _ s5.1 s5.2 (by rw [heq3])
  have hrep6 := missingStep_spec s5.1 s5.2
  subst hd
  have hcols : s5.1.cols = df.cols := by
    rw [hd5, hc4, hc3, hc2, hc1]
  have hrows : List.Sublist s5.1.rows df.rows := by
    rw [hd5]
    exact (hsub4.trans (hsub3.trans hsub2)).trans hsub1
  have hrows2 : List.Sublist s5.1.rows
      ((required_fields.foldl nullStep
        (dedupStep df ⟨df.rows.length, [], 0, 0⟩)).1.rows) := by
    rw [hd5]
    exact hsub4.trans hsub3
  have hrows3 : List.Sublist s5.1.rows s3.1.rows := by
    rw [hd5]
    exact hsub4
  have horig : r.original_rows = df.rows.length := by
    rw [← hr]
    exact (hrep6.1.trans (hrep5.1.trans (hrep4.1.trans (hrep3.1.trans
      (hrep2.1.trans hrep1.1)))))
  refine ⟨hcols, hrows, horig, by rw [← hr], by rw [← hr], ?_, ?_, ?_, ?_⟩
  · intro f hf hfc row hrow
    have hfc1 : f ∈ (dedupStep df ⟨df.rows.length, [], 0, 0⟩).1.cols := by
      rw [hc1]
      exact hfc
    have := hnull2 f hf hfc1 row (hrows2.subset hrow)
    rw [hc1] at this
    exact this
  · intro hq row hrow
    have hq2 : "quantity" ∈
        (required_fields.foldl nullStep
          (dedupStep df ⟨df.rows.length, [], 0, 0⟩)).1.cols := by
      rw [hc2, hc1]
      exact hq
    have := hqty3 hq2 row (hrows3.subset hrow)
    rw [hc2, hc1] at this
    exact this
  · intro hq row hrow
    have hq3 : "unit_price" ∈ s3.1.cols := by
      rw [hc3, hc2, hc1]
      exact hq
    have := hprice4 hq3 row (by rw [hd5] at hrow; exact hrow)
    rw [hc3, hc2, hc1] at this
    exact this
  · intro htid
    have hnd := hid1 htid
    have hsubmap : List.Sublist
        (s5.1.rows.map (fun row => getCell df.cols row "transaction_id"))
        ((dedupStep df ⟨df.rows.length, [], 0, 0⟩).1.rows.map
          (fun row => getCell df.cols row "transaction_id")) := by
      apply List.Sublist.map
      rw [hd5]
      exact hsub4.trans (hsub3.trans hsub2)
    exact hnd.sublist hsubmap

/-! ### Error-shape helpers for the validator -/
theorem qtyStep_error (df : DF) (report : QReport) (e : VErr)
    (h : qtyStep df report = Except.error e) : e = VErr.typeError := by
  unfold qtyStep at h
  split at h
  · split at h
    · injection h with he
      exact he.symm
    · split at h <;> exact Except.noConfusion h
  · exact Except.noConfusion h

theorem priceStep_error (df : DF) (report : QReport) (e : VErr)
    (h : priceStep df report = Except.error e) : e = VErr.typeError := by
  unfold priceStep at h
  split at h
  · split at h
    · injection h with he
      exact he.symm
    · split at h <;> exact Except.noConfusion h
  · exact Except.noConfusion h

theorem marginStep_error (df : DF) (report : QReport) (e : VErr)
    (h : marginStep df report = Except.error e) : e = VErr.typeError := by
  unfold marginStep at h
  split at h
  · split at h
    · injection h with he
      exact he.symm
    · split at h <;> exact Except.noConfusion h
  · exact Except.noConfusion h

theorem validate_rules_error (df : DF) (e : VErr)
    (h : validate_rules df = Except.error e) : e = VErr.typeError := by
  simp only [validate_rules] at h
  rcases bindE_error _ _ _ h with hx | ⟨s3, hq, h⟩
  · exact qtyStep_error _ _ e hx
  rcases bindE_error _ _ _ h with hx | ⟨s4, hp, h⟩
  · exact priceStep_error _ _ e hx
  rcases bindE_error _ _ _ h with hx | ⟨s5, hm, h⟩
  · exact marginStep_error _ _ e hx
  · exact Except.noConfusion h

theorem validate_ok_rules (df : DF) (s : DF × QReport)
    (h : validate_data_quality df = Except.ok s) :
    validate_rules df = Except.ok s ∧ s.2.final_rows ≠ 0 := by
  unfold validate_data_quality at h
  split at h
  next e heq => exact Except.noConfusion h
  next t heq =>
    by_cases hz : t.2.final_rows = 0
    · rw [if_pos hz] at h
      exact Except.noConfusion h
    · rw [if_neg hz] at h
      injection h with hs
      subst hs
      exact ⟨heq, hz⟩

/-- C2: `validate_data_quality` raises the fatal "all rows removed" error
exactly when the row count after all rules is zero; a normal return
always carries a non-empty table; and the error is propagated unswallowed
by the `clean_csv` driver. -/
theorem C2_zero_rows_fatal (df : DF) :
    (∀ d r, validate_data_quality df = Except.ok (d, r) →
      d.rows.length ≠ 0) ∧
    (validate_data_quality df = Except.error VErr.allRowsRemoved ↔
      ∃ d r, validate_rules df = Except.ok (d, r) ∧ d.rows.length = 0) ∧
    (∀ scorer parse tDT cmp sf mappings erp la sfid p e,
      preprocess scorer parse tDT cmp sf mappings df erp = some p →
      validate_data_quality p = Except.error e →
      clean_csv scorer parse tDT cmp sf mappings df erp la sfid =
        Except.error e) := by
  refine ⟨?_, ?_, ?_⟩
  · intro d r h
    obtain ⟨hrules, hnz⟩ := validate_ok_rules df (d, r) h
    have hfin := (validate_rules_spec df d r hrules).2.2.2.1
    rw [hfin] at hnz
    exact hnz
  · constructor
    · intro h
      unfold validate_data_quality at h
      split at h
      next e heq =>
        injection h with he
        exact absurd ((validate_rules_error df e heq).symm.trans he)
          (by decide)
      next s heq =>
        by_cases hz : s.2.final_rows = 0
        · refine ⟨s.1, s.2, heq, ?_⟩
          have hfin := (validate_rules_spec df s.1 s.2 heq).2.2.2.1
          rw [hfin] at hz
          exact hz
        · rw [if_neg hz] at h
          exact Except.noConfusion h
    · rintro ⟨d, r, hrules, hzero⟩
      have hfin : r.final_rows = 0 := by
        rw [(validate_rules_spec df d r hrules).2.2.2.1]
        exact hzero
      unfold validate_data_quality
      rw [hrules]
      simp [hfin]
  · intro scorer parse tDT cmp sf mappings erp la sfid p e hpre hval
    unfold clean_csv
    simp only [hpre, hval]

/-- C2 witness: a quantity-0 single-row table raises the fatal error, and
a valid single-row table returns non-empty. -/
theorem C2_zero_rows_witness :
    validate_data_quality vdfq = Except.error VErr.allRowsRemoved ∧
    vdfok.rows.length ≠ 0 :=
  ⟨(C2_zero_rows_fatal vdfq).2.1.mpr ⟨_, _, rfl, rfl⟩,
   (C2_zero_rows_fatal vdfok).1 vdfok qrep1 rfl⟩

/-- C3: the QualityReport's `rows_removed` equals `original_rows −
final_rows` exactly, with `original_rows` the received row count and
`final_rows` the returned row count. -/
theorem C3_rows_removed_exact (df : DF) (d : DF) (r : QReport)
    (h : validate_data_quality df = Except.ok (d, r)) :
    r.original_rows = df.rows.length ∧ r.final_rows = d.rows.length ∧
    r.rows_removed + r.final_rows = r.original_rows := by
  obtain ⟨hrules, _⟩ := validate_ok_rules df (d, r) h
  obtain ⟨_, hsub, horig, hfin, hrem, _⟩ := validate_rules_spec df d r hrules
  refine ⟨horig, hfin, ?_⟩
  rw [horig, hfin, hrem]
  have := hsub.length_le
  omega

/-- C3 witness: the bookkeeping identity at a concrete one-row table. -/
theorem C3_rows_removed_witness :
    qrep1.original_rows = vdfok.rows.length ∧
    qrep1.final_rows = vdfok.rows.length ∧
    qrep1.rows_removed + qrep1.final_rows = qrep1.original_rows :=
  C3_rows_removed_exact vdfok vdfok qrep1 rfl

/-- C9: the margin rule never removes rows — when both columns exist, the
(non-raising) comparison flags some rows, the step returns the table
unchanged and only appends the warning issue with the affected count. -/
theorem C9_margin_flags_only (df : DF) (report : QReport)
    (h1 : "cost_price" ∈ df.cols) (h2 : "unit_price" ∈ df.cols)
    (hnr : ((getCol df "cost_price").zip (getCol df "unit_price")).any
      (fun p => cmpRaises p.1 p.2) = false)
    (hpos : 0 < negMarginCount df) :
    marginStep df report = Except.ok (df,
      addIssue report
        s!"⚠️  {negMarginCount df} rows have selling price < cost price") := by
  unfold marginStep
  rw [if_pos ⟨h1, h2⟩]
  simp only [hnr, Bool.false_eq_true, if_false]
  rw [if_pos hpos]

/-- C9 witness: the margin step on a concrete negative-margin table. -/
theorem C9_margin_flags_witness :
    marginStep c9df qrep0 = Except.ok (c9df,
      addIssue qrep0
        s!"⚠️  {negMarginCount c9df} rows have selling price < cost price") :=
  C9_margin_flags_only c9df qrep0 (by decide) (by decide) (by decide)
    (by decide)

theorem qty_valid_cell (c : Cell) (h1 : qtyInvalid c = false)
    (h2 : isStr c = false) : ∃ q : ℚ, c = Cell.num q ∧ 0 < q := by
  cases c with
  | num q =>
    refine ⟨q, rfl, ?_⟩
    simp only [qtyInvalid, cellLe0, isna, Bool.or_false,
      decide_eq_false_iff_not] at h1
    exact lt_of_not_le h1
  | str s => cases h2
  | null => simp [qtyInvalid, isna] at h1

/-- C10: on every normal return of `validate_data_quality` the returned
rows form a subsequence of the input rows (only removal, no alteration or
reordering), and every returned row satisfies all hard rules: non-null in
each required column present, quantity > 0 and unit price > 0 when those
columns are present, and pairwise-distinct transaction ids when present. -/
theorem C10_validator_invariants (df : DF) (d : DF) (r : QReport)
    (h : validate_data_quality df = Except.ok (d, r)) :
    d.cols = df.cols ∧
    List.Sublist d.rows df.rows ∧
    (∀ f ∈ required_fields, f ∈ df.cols → ∀ row ∈ d.rows,
      isna (getCell df.cols row f) = false) ∧
    ("quantity" ∈ df.cols → ∀ row ∈ d.rows,
      ∃ q : ℚ, getCell df.cols row "quantity" = Cell.num q ∧ 0 < q) ∧
    ("unit_price" ∈ df.cols → ∀ row ∈ d.rows,
      ∃ q : ℚ, getCell df.cols row "unit_price" = Cell.num q ∧ 0 < q) ∧
    ("transaction_id" ∈ df.cols →
      (d.rows.map (fun row => getCell df.cols row "transaction_id")).Nodup) := by
  obtain ⟨hrules, _⟩ := validate_ok_rules df (d, r) h
  obtain ⟨hcols, hsub, _, _, _, hnull, hqty, hprice, htid⟩ :=
    validate_rules_spec df d r hrules
  refine ⟨hcols, hsub, hnull, ?_, ?_, htid⟩
  · intro hq row hrow
    obtain ⟨h1, h2⟩ := hqty hq row hrow
    exact qty_valid_cell _ h1 h2
  · intro hq row hrow
    obtain ⟨h1, h2⟩ := hprice hq row hrow
    exact qty_valid_cell _ h1 h2

/-- C10 witness: the subsequence and distinct-id invariants at a concrete
valid one-row table. -/
theorem C10_validator_witness :
    List.Sublist vdfok.rows vdfok.rows ∧
    (vdfok.rows.map
      (fun row => getCell vdfok.cols row "transaction_id")).Nodup :=
  ⟨(C10_validator_invariants vdfok vdfok qrep1 rfl).2.1,
   (C10_validator_invariants vdfok vdfok qrep1 rfl).2.2.2.2.2 (by decide)⟩

/-- C4 (counterexample): `clean_csv` does NOT restrict the output to
canonical plus provenance columns — `pandas.rename` keeps unmapped source
columns under their original names, so `zzz_extra_raw` appears in the
output though it is neither canonical nor a provenance column. -/
theorem C4_canonical_columns_counterexample :
    clean_csv zeroScorer noParse idDT allPast idSF erp_mappings c4df
      (some "gofrugal") "2024-06-01T00:00:00" "input.csv" =
      Except.ok (c4out, c4rep) ∧
    "zzz_extra_raw" ∈ c4out.cols ∧
    "zzz_extra_raw" ∉ canonical_fields ∧
    "zzz_extra_raw" ≠ "loaded_at" ∧
    "zzz_extra_raw" ≠ "source_file" :=
  ⟨rfl, by decide, by decide, by decide, by decide⟩

theorem clean_dates_cols (toDatetime : List Cell → Option (List Cell))
    (cmpNow : List Cell → Option (List Bool))
    (strftime : List Cell → Option (List Cell)) (df : DF) (c : String) :
    (clean_dates toDatetime cmpNow strftime df c).cols = df.cols := by
  unfold clean_dates
  cases toDatetime (getCol df c) with
  | none => rfl
  | some parsed =>
    simp only []
    cases cmpNow (getCol (setCol df c parsed) c) with
    | none => exact setCol_cols df c parsed
    | some future =>
      simp only []
      by_cases hany : future.any (fun b => b)
      · rw [if_pos hany]
        cases strftime (getCol (⟨(setCol df c parsed).cols,
            dropMasked (setCol df c parsed).rows future⟩ : DF) c) with
        | none => exact setCol_cols df c parsed
        | some formatted =>
          simp only []
          rw [setCol_cols]
          exact setCol_cols df c parsed
      · rw [if_neg hany]
        cases strftime (getCol (setCol df c parsed) c) with
        | none => exact setCol_cols df c parsed
        | some formatted =>
          simp only []
          rw [setCol_cols]
          exact setCol_cols df c parsed

theorem clean_numeric_cols (parse : String → Option ℚ) (df : DF)
    (c : String) : (clean_numeric parse df c).cols = df.cols :=
  setCol_cols df c _

theorem numeric_fold_cols (parse : String → Option ℚ) (L : List String)
    (df : DF) :
    (L.foldl (fun d c => if c ∈ d.cols then clean_numeric parse d c else d)
      df).cols = df.cols := by
  induction L generalizing df with
  | nil => rfl
  | cons a as ih =>
    rw [List.foldl_cons, ih]
    by_cases h : a ∈ df.cols
    · rw [if_pos h]
      exact clean_numeric_cols parse df a
    · rw [if_neg h]

theorem findIdx_none_of_not_mem (cols : List String) (c : String)
    (h : c ∉ cols) : cols.findIdx? (fun x => x == c) = none := by
  induction cols with
  | nil => rfl
  | cons a as ih =>
    simp only [List.mem_cons, not_or] at h
    rw [List.findIdx?_cons]
    have hne : (a == c) = false := by
      simp only [beq_eq_false_iff_ne]
      exact fun he => h.1 he.symm
    simp [hne, ih h.2]

theorem addCol_cols_of_not_mem (df : DF) (name : String) (v : Cell)
    (h : name ∉ df.cols) : (addCol df name v).cols = df.cols ++ [name] := by
  unfold addCol
  rw [findIdx_none_of_not_mem df.cols name h]

/-- C4 (amended): the output of `clean_csv` has as columns exactly the
input columns — matched ones renamed to their canonical field names,
unmapped source columns retained under their original names — followed by
the two provenance columns `loaded_at` and `source_file` (provided neither
provenance name collides with an existing column). -/
theorem C4_output_columns_amended (scorer : String → String → Nat)
    (parse : String → Option ℚ)
    (toDatetime : List Cell → Option (List Cell))
    (cmpNow : List Cell → Option (List Bool))
    (strftime : List Cell → Option (List Cell))
    (mappings : List (String × List (String × String)))
    (df : DF) (e : String) (m : List (String × String))
    (la sfile : String) (d : DF) (r : QReport)
    (hm : mappings.lookup e = some m)
    (h : clean_csv scorer parse toDatetime cmpNow strftime mappings df
      (some e) la sfile = Except.ok (d, r))
    (hla : "loaded_at" ∉
      renamedCols df.cols (fuzzy_match_columns scorer df.cols m).1)
    (hsf : "source_file" ∉
      renamedCols df.cols (fuzzy_match_columns scorer df.cols m).1) :
    d.cols = renamedCols df.cols (fuzzy_match_columns scorer df.cols m).1 ++
      ["loaded_at", "source_file"] := by
  simp only [clean_csv, preprocess, hm] at h
  split at h
  next ee heq => exact Except.noConfusion h
  next s heq =>
    have hpair := Except.ok.inj h
    have hd : addCol (addCol s.1 "loaded_at" (Cell.str la)) "source_file"
        (Cell.str sfile) = d := congrArg Prod.fst hpair
    obtain ⟨hrules, _⟩ := validate_ok_rules _ s heq
    have hscols := (validate_rules_spec _ s.1 s.2 hrules).1
    have hPcols : (numeric_cols.foldl
        (fun dd c => if c ∈ dd.cols then clean_numeric parse dd c else dd)
        (if "transaction_date" ∈
            (renameCols df (fuzzy_match_columns scorer df.cols m).1).cols
         then clean_dates toDatetime cmpNow strftime
            (renameCols df (fuzzy_match_columns scorer df.cols m).1)
            "transaction_date"
         else renameCols df
            (fuzzy_match_columns scorer df.cols m).1)).cols =
        renamedCols df.cols (fuzzy_match_columns scorer df.cols m).1 := by
      rw [numeric_fold_cols]
      by_cases hdate : "transaction_date" ∈
          (renameCols df (fuzzy_match_columns scorer df.cols m).1).cols
      · rw [if_pos hdate, clean_dates_cols]
        rfl
      · rw [if_neg hdate]
        rfl
    have hs1 : s.1.cols =
        renamedCols df.cols (fuzzy_match_columns scorer df.cols m).1 := by
      rw [hscols]
      exact hPcols
    have hla1 : "loaded_at" ∉ s.1.cols := by
      rw [hs1]
      exact hla
    have hsf1 : "source_file" ∉ s.1.cols ++ ["loaded_at"] := by
      rw [List.mem_append, hs1]
      rintro (hin | hin)
      · exact hsf hin
      · simp at hin
    have hsf2 : "source_file" ∉
        (addCol s.1 "loaded_at" (Cell.str la)).cols := by
      rw [addCol_cols_of_not_mem _ _ _ hla1]
      exact hsf1
    have hgoal : (addCol (addCol s.1 "loaded_at" (Cell.str la))
        "source_file" (Cell.str sfile)).cols =
        renamedCols df.cols (fuzzy_match_columns scorer df.cols m).1 ++
          ["loaded_at", "source_file"] := by
      rw [addCol_cols_of_not_mem _ _ _ hsf2,
        addCol_cols_of_not_mem _ _ _ hla1, hs1, List.append_assoc]
      rfl
    rw [← hd]
    exact hgoal

/-- C4 witness: the amended column-set law evaluated at the concrete
counterexample run. -/
theorem C4_output_columns_witness :
    c4out.cols =
      renamedCols c4df.cols
        (fuzzy_match_columns zeroScorer c4df.cols gfMap).1 ++
      ["loaded_at", "source_file"] :=
  C4_output_columns_amended zeroScorer noParse idDT allPast idSF
    erp_mappings c4df "gofrugal" gfMap "2024-06-01T00:00:00" "input.csv"
    c4out c4rep rfl rfl (by decide) (by decide)

end ErpClean
